import Mathlib

/-!
# Verification of the JIRA issue analytics script

A shallow embedding of `src/Fetch_JIRA_Issues.py` together with theorems
about its status-duration calculator and its two HTTP fetchers.

Modelling conventions:

* Instants (the parsed `datetime` values) are rationals, measured in seconds.
  `(b - a).total_seconds() / 3600` becomes the exact rational `(b - a) / 3600`;
  floating-point round-off is abstracted away, so equalities proved here are
  exact (hence hold a fortiori within any positive tolerance).
* A Python `dict` is an insertion-ordered association list with unique keys;
  `d.get(k, 0)` is `dictGet`, `d[k] = v` is `dictSet` (update in place, or
  append a fresh key at the end).
* `Optional[str]` is `Option String`.  Python's truthiness test
  `if last_status:` is false for both `None` and the empty string `""`
  (and `last_timestamp`, a `datetime`, is always truthy), which `truthy`
  captures.
* `datetime.now(...)` in the last block of `calculate_time_in_status` is the
  evaluation instant; it is passed explicitly as the parameter `now`.
-/

/-- One element of a changelog entry's `items` array:
`{field, fromString, toString}` (spec: `FieldChange`). -/
structure FieldChange where
  field : String
  fromString : Option String
  toString : Option String
  deriving Repr, DecidableEq

/-- One element of the changelog `values` array: a `created` timestamp
(seconds, as parsed by `strptime`) and its `items` (spec: `ChangelogEntry`). -/
structure ChangelogEntry where
  created : ℚ
  items : List FieldChange
  deriving Repr, DecidableEq

/-- Python truthiness of an `Optional[str]`: `None` and `""` are falsy. -/
def truthy : Option String → Bool
  | none => false
  | some s => !(s == "")

/-- `d.get(k, 0)`: value at the key `k`, defaulting to `0`. -/
def dictGet : List (String × ℚ) → String → ℚ
  | [], _ => 0
  | (k, v) :: rest, key => if k = key then v else dictGet rest key

/-- `d[k] = v`: replace the value at the key `k` in place, or append the new
key at the end (Python dicts keep insertion order). -/
def dictSet : List (String × ℚ) → String → ℚ → List (String × ℚ)
  | [], key, v => [(key, v)]
  | (k, w) :: rest, key, v =>
    if k = key then (key, v) :: rest else (k, w) :: dictSet rest key v

/-- Sum of the values of a dict (`sum(d.values())`). -/
def sumValues (d : List (String × ℚ)) : ℚ := (d.map Prod.snd).sum

/-- The loop state of `calculate_time_in_status`:
`status_times`, `last_status`, `last_timestamp`. -/
structure CalcState where
  status_times : List (String × ℚ)
  last_status : Option String
  last_timestamp : ℚ
  deriving Repr, DecidableEq

/-- The body executed for a `change` with `field == 'status'` inside an entry
with timestamp `created` (lines 104-113 of the source): when `last_status`
is truthy, add the elapsed hours to its slot; then unconditionally set
`last_status = to_status` and `last_timestamp = created`. -/
def applyChange (st : CalcState) (created : ℚ) (toStat : Option String) : CalcState :=
  let times :=
    match st.last_status with
    | none => st.status_times
    | some s =>
      if s = "" then st.status_times
      else dictSet st.status_times s
        (dictGet st.status_times s + (created - st.last_timestamp) / 3600)
  ⟨times, toStat, created⟩

/-- One iteration of the inner loop `for change in item['items']`:
only changes with `field == 'status'` do anything. -/
def stepChange (st : CalcState) (created : ℚ) (change : FieldChange) : CalcState :=
  if change.field = "status" then applyChange st created change.toString else st

/-- One iteration of the outer loop `for item in history`. -/
def runEntry (st : CalcState) (e : ChangelogEntry) : CalcState :=
  e.items.foldl (fun st c => stepChange st e.created c) st

/-- The block after the loop (lines 116-119): attribute the still-open final
interval `[last_timestamp, now]` to the current status, when truthy. -/
def finalize (st : CalcState) (now : ℚ) : List (String × ℚ) :=
  match st.last_status with
  | none => st.status_times
  | some s =>
    if s = "" then st.status_times
    else dictSet st.status_times s
      (dictGet st.status_times s + (now - st.last_timestamp) / 3600)

/-- `calculate_time_in_status(history, created_date)` with the evaluation
instant `now` (obtained in the source via `datetime.now`) made explicit:
start from `{"status_times" = {}, last_status = "To Do",
last_timestamp = created_date}`, fold over the changelog, then close the
final interval. -/
def calculate_time_in_status (history : List ChangelogEntry) (created_date : ℚ)
    (now : ℚ) : List (String × ℚ) :=
  finalize (history.foldl runEntry ⟨[], some "To Do", created_date⟩) now

/-- The subsequence of status transitions the calculator reacts to: for each
entry, the `items` with `field == "status"`, each paired with the entry's
timestamp (everything `applyChange` reads of a change is its `toString`). -/
def statusChangesOf : List ChangelogEntry → List (ℚ × Option String)
  | [] => []
  | e :: rest =>
    (e.items.filter fun ch => ch.field == "status").map
      (fun ch => (e.created, ch.toString)) ++ statusChangesOf rest

/-- Folding `applyChange` over a flattened list of status transitions. -/
def runChanges (st : CalcState) (chs : List (ℚ × Option String)) : CalcState :=
  chs.foldl (fun st p => applyChange st p.1 p.2) st

/-- Modelled from the spec: the derived `StatusInterval` timeline (§3).
`statusIntervals s0 start chs now` is the list of `(status, startTime,
endTime)` spans obtained by starting in status `s0` at `start`, switching
status at each transition, and closing the last span at `now`. -/
def statusIntervals : Option String → ℚ → List (ℚ × Option String) → ℚ →
    List (Option String × ℚ × ℚ)
  | s, start, [], now => [(s, start, now)]
  | s, start, (t, toStat) :: rest, now =>
    (s, start, t) :: statusIntervals toStat t rest now

/-- Duration of an interval, in hours. -/
def dur (iv : Option String × ℚ × ℚ) : ℚ := (iv.2.2 - iv.2.1) / 3600

/-- Total duration, in hours, of the intervals spent in the status `σ`. -/
def statusTotal (σ : String) (ivs : List (Option String × ℚ × ℚ)) : ℚ :=
  ((ivs.filter fun iv => iv.1 == some σ).map dur).sum

/-- Total duration, in hours, of the intervals whose status is truthy
(only these are ever booked by the calculator). -/
def truthyTotal (ivs : List (Option String × ℚ × ℚ)) : ℚ :=
  ((ivs.filter fun iv => truthy iv.1).map dur).sum

/-- Every status transition carries a non-empty new status name. -/
def wellFormedChanges (chs : List (ℚ × Option String)) : Bool :=
  chs.all fun p => truthy p.2

/-- The time stamps of a flattened transition list. -/
def timesOf (chs : List (ℚ × Option String)) : List ℚ := chs.map Prod.fst

/-- The changelog is ascending, starts no earlier than `c`, and ends no
later than `n`: the chain `c ≤ t₁ ≤ … ≤ t_k ≤ n`. -/
def ordered (c : ℚ) (chs : List (ℚ × Option String)) (n : ℚ) : Prop :=
  List.Chain (· ≤ ·) c (timesOf chs ++ [n])

/-- The timestamp of the first transition of a list, or `n` for the empty
list: the instant at which the interval opened just before the list ends. -/
def headTime : List (ℚ × Option String) → ℚ → ℚ
  | [], n => n
  | (t, _) :: _, _ => t

/-- Equality of two field changes except possibly at `fromString`
(the only field of a change the calculator never reads). -/
def eqChangeExceptFrom (c1 c2 : FieldChange) : Bool :=
  c1.field == c2.field && c1.toString == c2.toString

/-- Pointwise `eqChangeExceptFrom` on `items` lists. -/
def eqItemsExceptFrom : List FieldChange → List FieldChange → Bool
  | [], [] => true
  | c1 :: r1, c2 :: r2 => eqChangeExceptFrom c1 c2 && eqItemsExceptFrom r1 r2
  | _, _ => false

/-- Two changelogs that agree everywhere except possibly in the
`fromString` fields of their items. -/
def eqHistExceptFrom : List ChangelogEntry → List ChangelogEntry → Bool
  | [], [] => true
  | e1 :: r1, e2 :: r2 =>
    decide (e1.created = e2.created) && eqItemsExceptFrom e1.items e2.items &&
      eqHistExceptFrom r1 r2
  | _, _ => false

/-- Outcome of one HTTP GET at the `requests` boundary: either the server
responded (status code plus, for successful responses, the parsed list the
function extracts from the JSON body), or the request itself raised a
network-level `RequestException`. -/
inductive TransportOutcome (α : Type) where
  | response (statusCode : ℕ) (body : List α)
  | networkFailure (message : String)

/-- `response.raise_for_status()` raises `HTTPError` — a subclass of
`RequestException` — exactly for 4xx/5xx status codes (this includes an
authentication rejection, HTTP 401). -/
def httpError (code : ℕ) : Bool := decide (400 ≤ code)

/-- A transport outcome on which the `except
requests.exceptions.RequestException` branch fires: the request raised, or
`raise_for_status` raised on a non-2xx code. -/
def transportFails {α : Type} : TransportOutcome α → Bool
  | .networkFailure _ => true
  | .response code _ => httpError code

/-- `fetch_jira_issues` (lines 38-48): on any `RequestException` the
function prints an error line and returns `[]`; otherwise it returns the
`issues` array of the response body.  The returned pair is
(result, printed lines). -/
def fetch_jira_issues {α : Type} (outcome : TransportOutcome α) :
    List α × List String :=
  match outcome with
  | .networkFailure msg => ([], ["Error fetching Jira issues: " ++ msg])
  | .response code body =>
    if httpError code then
      ([], ["Error fetching Jira issues: HTTP " ++ toString code])
    else (body, [])

/-- `fetch_issue_history` (lines 72-82): same recovery shape, with the
issue key in the message, returning the `values` array on success. -/
def fetch_issue_history {α : Type} (issue_key : String)
    (outcome : TransportOutcome α) : List α × List String :=
  match outcome with
  | .networkFailure msg =>
    ([], ["Error fetching issue history for " ++ issue_key ++ ": " ++ msg])
  | .response code body =>
    if httpError code then
      ([], ["Error fetching issue history for " ++ issue_key ++ ": HTTP " ++
        toString code])
    else (body, [])

-- Sanity checks against the spec's "single transition" example
-- (hours scaled to seconds: created 0, transition at 10 h, now at 24 h).
example :
    calculate_time_in_status
      [⟨36000, [⟨"status", some "To Do", some "In Progress"⟩]⟩] 0 86400 =
      [("To Do", 10), ("In Progress", 14)] := by
  simp [calculate_time_in_status, runEntry, stepChange, applyChange, finalize,
    dictGet, dictSet]
  norm_num

example : calculate_time_in_status [] 0 7200 = [("To Do", 2)] := by
  simp [calculate_time_in_status, finalize, dictGet, dictSet]
  norm_num

/-! ## Dictionary lemmas -/

theorem sumValues_nil : sumValues [] = 0 := rfl

theorem sumValues_cons (p : String × ℚ) (d : List (String × ℚ)) :
    sumValues (p :: d) = p.2 + sumValues d := by
  simp [sumValues]

theorem dictGet_dictSet_same (d : List (String × ℚ)) (k : String) (v : ℚ) :
    dictGet (dictSet d k v) k = v := by
  induction d with
  | nil => simp [dictSet, dictGet]
  | cons p rest ih =>
    obtain ⟨k0, w⟩ := p
    by_cases h : k0 = k
    · simp [dictSet, dictGet, h]
    · simp [dictSet, dictGet, h, ih]

theorem dictGet_dictSet_ne (d : List (String × ℚ)) (k k' : String) (v : ℚ)
    (h : k ≠ k') : dictGet (dictSet d k v) k' = dictGet d k' := by
  induction d with
  | nil => simp [dictSet, dictGet, h]
  | cons p rest ih =>
    obtain ⟨k0, w⟩ := p
    by_cases h0 : k0 = k
    · subst h0
      simp [dictSet, dictGet, h]
    · simp [dictSet, dictGet, h0, ih]

theorem sumValues_dictSet (d : List (String × ℚ)) (k : String) (x : ℚ) :
    sumValues (dictSet d k (dictGet d k + x)) = sumValues d + x := by
  induction d with
  | nil => simp [dictSet, dictGet, sumValues]
  | cons p rest ih =>
    obtain ⟨k0, w⟩ := p
    by_cases h0 : k0 = k
    · subst h0
      simp [dictSet, dictGet, sumValues_cons]
      ring
    · simp [dictSet, dictGet, h0, sumValues_cons, ih]
      ring

/-! ## Factoring the calculator through the flattened transition list -/

theorem runChanges_nil (st : CalcState) : runChanges st [] = st := rfl

theorem runChanges_cons (st : CalcState) (t : ℚ) (toStat : Option String)
    (rest : List (ℚ × Option String)) :
    runChanges st ((t, toStat) :: rest) =
      runChanges (applyChange st t toStat) rest := rfl

theorem runChanges_append (st : CalcState) (a b : List (ℚ × Option String)) :
    runChanges st (a ++ b) = runChanges (runChanges st a) b := by
  simp [runChanges, List.foldl_append]

theorem foldl_stepChange (items : List FieldChange) (t : ℚ) (st : CalcState) :
    items.foldl (fun st c => stepChange st t c) st =
      runChanges st ((items.filter fun ch => ch.field == "status").map
        fun ch => (t, ch.toString)) := by
  induction items generalizing st with
  | nil => simp [runChanges]
  | cons c rest ih =>
    rw [List.foldl_cons, ih]
    by_cases h : c.field = "status"
    · have hc : stepChange st t c = applyChange st t c.toString := by
        simp [stepChange, h]
      have hf : (c :: rest).filter (fun ch => ch.field == "status") =
          c :: rest.filter (fun ch => ch.field == "status") := by
        simp [List.filter_cons, h]
      rw [hc, hf, List.map_cons, runChanges_cons]
    · have hc : stepChange st t c = st := by simp [stepChange, h]
      have hf : (c :: rest).filter (fun ch => ch.field == "status") =
          rest.filter (fun ch => ch.field == "status") := by
        simp [List.filter_cons, h]
      rw [hc, hf]

theorem foldl_runEntry (history : List ChangelogEntry) (st : CalcState) :
    history.foldl runEntry st = runChanges st (statusChangesOf history) := by
  induction history generalizing st with
  | nil => simp [statusChangesOf, runChanges]
  | cons e rest ih =>
    simp [statusChangesOf, runChanges_append, ih, runEntry, foldl_stepChange]

theorem calculate_eq_runChanges (history : List ChangelogEntry) (c n : ℚ) :
    calculate_time_in_status history c n =
      finalize (runChanges ⟨[], some "To Do", c⟩ (statusChangesOf history)) n := by
  simp [calculate_time_in_status, foldl_runEntry]

/-! ## Interval bookkeeping lemmas -/

theorem statusTotal_nil (σ : String) : statusTotal σ [] = 0 := rfl

theorem statusTotal_cons (σ : String) (iv : Option String × ℚ × ℚ)
    (ivs : List (Option String × ℚ × ℚ)) :
    statusTotal σ (iv :: ivs) =
      (if iv.1 = some σ then dur iv else 0) + statusTotal σ ivs := by
  by_cases h : iv.1 = some σ <;> simp [statusTotal, List.filter_cons, h]

theorem truthyTotal_nil : truthyTotal [] = 0 := rfl

theorem truthyTotal_cons (iv : Option String × ℚ × ℚ)
    (ivs : List (Option String × ℚ × ℚ)) :
    truthyTotal (iv :: ivs) =
      (if truthy iv.1 then dur iv else 0) + truthyTotal ivs := by
  by_cases h : truthy iv.1 <;> simp [truthyTotal, List.filter_cons, h]

theorem dictGet_applyChange (st : CalcState) (t : ℚ) (toStat : Option String)
    (σ : String) (hσ : σ ≠ "") :
    dictGet (applyChange st t toStat).status_times σ =
      dictGet st.status_times σ +
        (if st.last_status = some σ then (t - st.last_timestamp) / 3600
         else 0) := by
  rcases st with ⟨d, ls, lt⟩
  cases ls with
  | none => simp [applyChange]
  | some s =>
    by_cases hs : s = ""
    · subst hs
      simp [applyChange, Ne.symm hσ]
    · by_cases hsσ : s = σ
      · subst hsσ
        simp [applyChange, hs, dictGet_dictSet_same]
      · simp [applyChange, hs, hsσ, dictGet_dictSet_ne _ _ _ _ hsσ]

theorem dictGet_finalize (st : CalcState) (n : ℚ) (σ : String) (hσ : σ ≠ "") :
    dictGet (finalize st n) σ =
      dictGet st.status_times σ +
        (if st.last_status = some σ then (n - st.last_timestamp) / 3600
         else 0) := by
  rcases st with ⟨d, ls, lt⟩
  cases ls with
  | none => simp [finalize]
  | some s =>
    by_cases hs : s = ""
    · subst hs
      simp [finalize, Ne.symm hσ]
    · by_cases hsσ : s = σ
      · subst hsσ
        simp [finalize, hs, dictGet_dictSet_same]
      · simp [finalize, hs, hsσ, dictGet_dictSet_ne _ _ _ _ hsσ]

theorem sumValues_applyChange (st : CalcState) (t : ℚ) (toStat : Option String) :
    sumValues (applyChange st t toStat).status_times =
      sumValues st.status_times +
        (if truthy st.last_status then (t - st.last_timestamp) / 3600
         else 0) := by
  rcases st with ⟨d, ls, lt⟩
  cases ls with
  | none => simp [applyChange, truthy]
  | some s =>
    by_cases hs : s = ""
    · subst hs
      simp [applyChange, truthy]
    · simp [applyChange, truthy, hs, sumValues_dictSet]

theorem sumValues_finalize (st : CalcState) (n : ℚ) :
    sumValues (finalize st n) =
      sumValues st.status_times +
        (if truthy st.last_status then (n - st.last_timestamp) / 3600
         else 0) := by
  rcases st with ⟨d, ls, lt⟩
  cases ls with
  | none => simp [finalize, truthy]
  | some s =>
    by_cases hs : s = ""
    · subst hs
      simp [finalize, truthy]
    · simp [finalize, truthy, hs, sumValues_dictSet]

/-- Per-status master invariant: the final value at any non-empty key `σ`
is its value in the incoming dict plus the total duration of the derived
intervals spent in `σ`. -/
theorem dictGet_finalize_runChanges (chs : List (ℚ × Option String))
    (st : CalcState) (n : ℚ) (σ : String) (hσ : σ ≠ "") :
    dictGet (finalize (runChanges st chs) n) σ =
      dictGet st.status_times σ +
        statusTotal σ
          (statusIntervals st.last_status st.last_timestamp chs n) := by
  induction chs generalizing st with
  | nil =>
    rw [runChanges_nil, dictGet_finalize st n σ hσ]
    simp [statusIntervals, statusTotal_cons, statusTotal_nil, dur]
  | cons p rest ih =>
    rcases p with ⟨t, toStat⟩
    rw [runChanges_cons, ih]
    have hls : (applyChange st t toStat).last_status = toStat := rfl
    have hlt : (applyChange st t toStat).last_timestamp = t := rfl
    rw [hls, hlt, dictGet_applyChange st t toStat σ hσ]
    simp [statusIntervals, statusTotal_cons, dur, add_assoc]

/-- Sum master invariant: the final dict total is the incoming dict total
plus the total duration of the truthy-status derived intervals. -/
theorem sumValues_finalize_runChanges (chs : List (ℚ × Option String))
    (st : CalcState) (n : ℚ) :
    sumValues (finalize (runChanges st chs) n) =
      sumValues st.status_times +
        truthyTotal
          (statusIntervals st.last_status st.last_timestamp chs n) := by
  induction chs generalizing st with
  | nil =>
    rw [runChanges_nil, sumValues_finalize st n]
    simp [statusIntervals, truthyTotal_cons, truthyTotal_nil, dur]
  | cons p rest ih =>
    rcases p with ⟨t, toStat⟩
    rw [runChanges_cons, ih]
    have hls : (applyChange st t toStat).last_status = toStat := rfl
    have hlt : (applyChange st t toStat).last_timestamp = t := rfl
    rw [hls, hlt, sumValues_applyChange st t toStat]
    simp [statusIntervals, truthyTotal_cons, dur, add_assoc]

/-- The derived intervals tile `[t0, n]`: their durations sum to
`(n - t0)` hours, independently of ordering or statuses. -/
theorem sum_dur_statusIntervals (chs : List (ℚ × Option String))
    (s0 : Option String) (t0 n : ℚ) :
    ((statusIntervals s0 t0 chs n).map dur).sum = (n - t0) / 3600 := by
  induction chs generalizing s0 t0 with
  | nil => simp [statusIntervals, dur]
  | cons p rest ih =>
    rcases p with ⟨t, toStat⟩
    simp [statusIntervals, dur, ih]
    ring

/-- With a truthy seed and well-formed transitions, every derived interval
carries a truthy status. -/
theorem statuses_truthy (chs : List (ℚ × Option String)) (s0 : Option String)
    (t0 n : ℚ) (h0 : truthy s0 = true) (h : wellFormedChanges chs = true) :
    ∀ iv ∈ statusIntervals s0 t0 chs n, truthy iv.1 = true := by
  induction chs generalizing s0 t0 with
  | nil =>
    intro iv hiv
    simp [statusIntervals] at hiv
    simp [hiv, h0]
  | cons p rest ih =>
    rcases p with ⟨t, toStat⟩
    simp [wellFormedChanges] at h
    intro iv hiv
    simp [statusIntervals] at hiv
    rcases hiv with rfl | hiv
    · exact h0
    · exact ih toStat t h.1 (by simpa [wellFormedChanges] using h.2) iv hiv

/-- On a list of all-truthy intervals, the truthy total is the full total. -/
theorem truthyTotal_eq_sum (ivs : List (Option String × ℚ × ℚ))
    (h : ∀ iv ∈ ivs, truthy iv.1 = true) :
    truthyTotal ivs = (ivs.map dur).sum := by
  induction ivs with
  | nil => simp [truthyTotal]
  | cons iv rest ih =>
    rw [truthyTotal_cons, if_pos (h iv (by simp)), List.map_cons,
      List.sum_cons, ih fun x hx => h x (by simp [hx])]

/-! ## Claim C4: empty changelog -/

/-- C4: for every `createdAt` and every `now` with `now ≥ createdAt`,
`calculate_time_in_status` on an empty changelog returns a mapping with
exactly one key, `"To Do"`, whose value is `(now - createdAt)` in hours. -/
theorem C4_empty_changelog (c n : ℚ) (_hcn : c ≤ n) :
    calculate_time_in_status [] c n = [("To Do", (n - c) / 3600)] := by
  simp [calculate_time_in_status, finalize, dictGet, dictSet]

theorem C4_empty_changelog_witness :
    calculate_time_in_status [] 0 7200 = [("To Do", (7200 - 0) / 3600)] :=
  C4_empty_changelog 0 7200 (by norm_num)

/-! ## Claim C7: determinism -/

/-- C7: the status-duration calculation is a pure function of its explicit
inputs plus the supplied evaluation instant `now`: two calls with identical
inputs (including an identical `now`) yield identical output.  In the
embedding `calculate_time_in_status` is a total function with no state
beyond its arguments, so the property is purity made formal. -/
theorem C7_deterministic (h1 h2 : List ChangelogEntry) (c1 c2 n1 n2 : ℚ)
    (hh : h1 = h2) (hc : c1 = c2) (hn : n1 = n2) :
    calculate_time_in_status h1 c1 n1 = calculate_time_in_status h2 c2 n2 := by
  subst hh
  subst hc
  subst hn
  rfl

theorem C7_deterministic_witness :
    calculate_time_in_status [⟨3600, [⟨"status", some "To Do", some "Done"⟩]⟩]
        0 7200 =
      calculate_time_in_status [⟨3600, [⟨"status", some "To Do", some "Done"⟩]⟩]
        0 7200 :=
  C7_deterministic _ _ 0 0 7200 7200 rfl rfl rfl

/-! ## Claim C6: non-status changes are ignored -/

/-- C6: the result depends on the changelog only through its status-field
changes: any two changelogs with the same flattened status-transition list
(in particular, two that differ by adding or removing items whose `field`
is not `"status"`, such as `"assignee"` items, which `statusChangesOf`
filters out) produce the same mapping — no extra duration, no extra keys. -/
theorem C6_nonstatus_ignored (h1 h2 : List ChangelogEntry) (c n : ℚ)
    (hs : statusChangesOf h1 = statusChangesOf h2) :
    calculate_time_in_status h1 c n = calculate_time_in_status h2 c n := by
  rw [calculate_eq_runChanges, calculate_eq_runChanges, hs]

theorem C6_nonstatus_ignored_witness :
    calculate_time_in_status
        [⟨3600, [⟨"assignee", some "alice", some "bob"⟩,
          ⟨"status", some "To Do", some "Done"⟩]⟩] 0 7200 =
      calculate_time_in_status
        [⟨3600, [⟨"status", some "To Do", some "Done"⟩]⟩] 0 7200 :=
  C6_nonstatus_ignored _ _ 0 7200 (by simp [statusChangesOf])

/-! ## Claim C8: fromValue noninterference -/

theorem eqItems_filterMap (t : ℚ) (i1 i2 : List FieldChange)
    (h : eqItemsExceptFrom i1 i2 = true) :
    (i1.filter fun ch => ch.field == "status").map (fun ch => (t, ch.toString)) =
      (i2.filter fun ch => ch.field == "status").map
        (fun ch => (t, ch.toString)) := by
  induction i1 generalizing i2 with
  | nil =>
    cases i2 with
    | nil => rfl
    | cons c r => simp [eqItemsExceptFrom] at h
  | cons c1 r1 ih =>
    cases i2 with
    | nil => simp [eqItemsExceptFrom] at h
    | cons c2 r2 =>
      simp [eqItemsExceptFrom, eqChangeExceptFrom] at h
      obtain ⟨⟨hf, ht⟩, hr⟩ := h
      by_cases hst : c1.field = "status"
      · have hst2 : c2.field = "status" := by rw [← hf]; exact hst
        simp [List.filter_cons, hst, hst2, ht, ih r2 hr]
      · have hst2 : ¬c2.field = "status" := by rw [← hf]; exact hst
        simp [List.filter_cons, hst, hst2, ih r2 hr]

theorem statusChanges_eqExceptFrom (h1 h2 : List ChangelogEntry)
    (h : eqHistExceptFrom h1 h2 = true) :
    statusChangesOf h1 = statusChangesOf h2 := by
  induction h1 generalizing h2 with
  | nil =>
    cases h2 with
    | nil => rfl
    | cons e r => simp [eqHistExceptFrom] at h
  | cons e1 r1 ih =>
    cases h2 with
    | nil => simp [eqHistExceptFrom] at h
    | cons e2 r2 =>
      simp [eqHistExceptFrom] at h
      obtain ⟨⟨hc, hi⟩, hr⟩ := h
      simp only [statusChangesOf]
      rw [ih r2 hr, ← hc, eqItems_filterMap e1.created e1.items e2.items hi]

/-- C8: the mapping is unchanged under any modification of the `fromString`
fields: two changelogs that agree except possibly in `fromString` yield the
same result.  Only the running current status (seeded `"To Do"`, then each
`toString`) determines attribution; `fromString` is read into a local
variable and never used. -/
theorem C8_fromValue_noninterference (h1 h2 : List ChangelogEntry) (c n : ℚ)
    (h : eqHistExceptFrom h1 h2 = true) :
    calculate_time_in_status h1 c n = calculate_time_in_status h2 c n := by
  rw [calculate_eq_runChanges, calculate_eq_runChanges,
    statusChanges_eqExceptFrom h1 h2 h]

theorem C8_fromValue_noninterference_witness :
    calculate_time_in_status
        [⟨3600, [⟨"status", some "Blocked", some "Done"⟩]⟩] 0 7200 =
      calculate_time_in_status
        [⟨3600, [⟨"status", none, some "Done"⟩]⟩] 0 7200 :=
  C8_fromValue_noninterference _ _ 0 7200
    (by simp [eqHistExceptFrom, eqItemsExceptFrom, eqChangeExceptFrom])

/-! ## Claim C9: transport-error recovery -/

/-- C9: whenever the HTTP request fails — the request raises a network
error, or the response is non-2xx (including an authentication rejection,
on which `raise_for_status` raises) — `fetch_jira_issues` and
`fetch_issue_history` each recover by printing exactly one error line and
returning the empty list, instead of raising. -/
theorem C9_transport_recovery (α : Type) (o1 o2 : TransportOutcome α)
    (key : String) (h1 : transportFails o1 = true)
    (h2 : transportFails o2 = true) :
    (fetch_jira_issues o1).1 = [] ∧ (fetch_jira_issues o1).2.length = 1 ∧
      (fetch_issue_history key o2).1 = [] ∧
      (fetch_issue_history key o2).2.length = 1 := by
  have hj : (fetch_jira_issues o1).1 = [] ∧
      (fetch_jira_issues o1).2.length = 1 := by
    cases o1 with
    | networkFailure msg => simp [fetch_jira_issues]
    | response code body =>
      simp only [transportFails] at h1
      simp [fetch_jira_issues, h1]
  have hh : (fetch_issue_history key o2).1 = [] ∧
      (fetch_issue_history key o2).2.length = 1 := by
    cases o2 with
    | networkFailure msg => simp [fetch_issue_history]
    | response code body =>
      simp only [transportFails] at h2
      simp [fetch_issue_history, h2]
  exact ⟨hj.1, hj.2, hh.1, hh.2⟩

theorem C9_transport_recovery_witness :
    (fetch_jira_issues (TransportOutcome.networkFailure "connection refused" :
        TransportOutcome ℕ)).1 = [] ∧
      (fetch_jira_issues (TransportOutcome.networkFailure "connection refused" :
        TransportOutcome ℕ)).2.length = 1 ∧
      (fetch_issue_history "PROJ-1" (TransportOutcome.response 401 [] :
        TransportOutcome ℕ)).1 = [] ∧
      (fetch_issue_history "PROJ-1" (TransportOutcome.response 401 [] :
        TransportOutcome ℕ)).2.length = 1 :=
  C9_transport_recovery ℕ _ _ "PROJ-1" (by decide) (by decide)

/-! ## Claim C1: conservation -/

/-- C1 fails as stated: the input below is well formed in the claim's sense —
ascending timestamps with `createdAt ≤ t ≤ now`, and the single status
change carries a `toValue` (`toString` is present: the empty string) — yet
Python's `if last_status:` is false for `""`, so the final interval is
dropped and the values sum to 1 hour instead of 2, far outside the 1e-6
tolerance. -/
theorem C1_counterexample :
    ordered 0 (statusChangesOf [⟨3600, [⟨"status", none, some ""⟩]⟩]) 7200 ∧
      (statusChangesOf [⟨3600, [⟨"status", none, some ""⟩]⟩]).all
        (fun p => p.2.isSome) = true ∧
      calculate_time_in_status [⟨3600, [⟨"status", none, some ""⟩]⟩] 0 7200 =
        [("To Do", 1)] ∧
      ¬|sumValues (calculate_time_in_status
          [⟨3600, [⟨"status", none, some ""⟩]⟩] 0 7200) -
        (7200 - 0) / 3600| ≤ 1 / 1000000 := by
  have hval : calculate_time_in_status
      [⟨3600, [⟨"status", none, some ""⟩]⟩] 0 7200 = [("To Do", 1)] := by
    simp [calculate_time_in_status, runEntry, stepChange, applyChange,
      finalize, dictGet, dictSet]
  refine ⟨?_, ?_, hval, ?_⟩
  · simp [ordered, timesOf, statusChangesOf, List.chain_cons]
    norm_num
  · simp [statusChangesOf]
  · rw [hval]
    simp [sumValues]
    norm_num

/-- C1 amended: conservation holds once every status change carries a
non-empty `toValue` (`wellFormedChanges`): for ascending well-formed input
the values of the returned mapping sum to exactly `(now - createdAt)` in
hours (exact rational equality, hence within any tolerance). -/
theorem C1_conservation (h : List ChangelogEntry) (c n : ℚ)
    (_hord : ordered c (statusChangesOf h) n)
    (hwf : wellFormedChanges (statusChangesOf h) = true) :
    sumValues (calculate_time_in_status h c n) = (n - c) / 3600 := by
  rw [calculate_eq_runChanges, sumValues_finalize_runChanges]
  have h0 : truthy (some "To Do") = true := by simp [truthy]
  rw [truthyTotal_eq_sum _ (statuses_truthy _ _ _ _ h0 hwf),
    sum_dur_statusIntervals]
  simp [sumValues]

theorem C1_conservation_witness :
    sumValues (calculate_time_in_status
      [⟨36000, [⟨"status", some "To Do", some "In Progress"⟩]⟩] 0 86400) =
      (86400 - 0) / 3600 :=
  C1_conservation _ 0 86400
    (by
      simp [ordered, timesOf, statusChangesOf, List.chain_cons]
      norm_num)
    (by simp [wellFormedChanges, statusChangesOf, truthy])

/-! ## Claim C5: accumulation on revisit -/

/-- C5: for a well-formed changelog in which a status `σ` is entered more
than once (at least two derived intervals carry `σ`), the returned value at
`σ` is the total duration of all of `σ`'s intervals — each booking adds to
`status_times.get(last_status, 0)`, so earlier intervals are accumulated,
not overwritten. -/
theorem C5_revisit_accumulates (h : List ChangelogEntry) (c n : ℚ) (σ : String)
    (hwf : wellFormedChanges (statusChangesOf h) = true)
    (hre : 2 ≤ ((statusIntervals (some "To Do") c (statusChangesOf h) n).filter
      (fun iv => iv.1 == some σ)).length) :
    dictGet (calculate_time_in_status h c n) σ =
      statusTotal σ (statusIntervals (some "To Do") c (statusChangesOf h) n) := by
  have h0 : truthy (some "To Do") = true := by simp [truthy]
  have hne : (statusIntervals (some "To Do") c (statusChangesOf h) n).filter
      (fun iv => iv.1 == some σ) ≠ [] := by
    intro hempty
    rw [hempty] at hre
    simp at hre
  obtain ⟨iv, hiv⟩ := List.exists_mem_of_ne_nil _ hne
  have hmem := List.mem_of_mem_filter hiv
  have hfilt : iv.1 = some σ := by simpa using List.of_mem_filter hiv
  have htru := statuses_truthy _ _ _ n h0 hwf iv hmem
  rw [hfilt] at htru
  have hσ : σ ≠ "" := by simpa [truthy] using htru
  rw [calculate_eq_runChanges, dictGet_finalize_runChanges _ _ _ σ hσ]
  simp [dictGet]

theorem C5_revisit_accumulates_witness :
    dictGet (calculate_time_in_status
      [⟨3600, [⟨"status", some "To Do", some "In Progress"⟩]⟩,
       ⟨7200, [⟨"status", some "In Progress", some "To Do"⟩]⟩,
       ⟨10800, [⟨"status", some "To Do", some "Done"⟩]⟩] 0 14400) "To Do" =
      statusTotal "To Do" (statusIntervals (some "To Do") 0
        (statusChangesOf
          [⟨3600, [⟨"status", some "To Do", some "In Progress"⟩]⟩,
           ⟨7200, [⟨"status", some "In Progress", some "To Do"⟩]⟩,
           ⟨10800, [⟨"status", some "To Do", some "Done"⟩]⟩]) 14400) :=
  C5_revisit_accumulates _ 0 14400 "To Do"
    (by simp [wellFormedChanges, statusChangesOf, truthy])
    (by simp [statusChangesOf, statusIntervals, List.filter_cons])

/-! ## Claim C2: negative intervals -/

/-- C2 fails as stated: on a changelog entry whose timestamp precedes
`createdAt`, `calculate_time_in_status` raises nothing — no `InvalidInterval`
exists anywhere in the source — and returns a mapping that has accumulated a
negative duration (`"To Do" ↦ -1` hours here). -/
theorem C2_counterexample :
    calculate_time_in_status
        [⟨-3600, [⟨"status", some "To Do", some "In Progress"⟩]⟩] 0 0 =
      [("To Do", -1), ("In Progress", 1)] ∧
      dictGet (calculate_time_in_status
        [⟨-3600, [⟨"status", some "To Do", some "In Progress"⟩]⟩] 0 0)
        "To Do" < 0 := by
  have hval : calculate_time_in_status
      [⟨-3600, [⟨"status", some "To Do", some "In Progress"⟩]⟩] 0 0 =
      [("To Do", -1), ("In Progress", 1)] := by
    simp [calculate_time_in_status, runEntry, stepChange, applyChange,
      finalize, dictGet, dictSet]
  refine ⟨hval, ?_⟩
  rw [hval]
  simp [dictGet]

/-- C2 amended: the source contains no interval validation at all.  When a
changelog entry's timestamp precedes `createdAt` by `d > 0` seconds, the
function returns normally and the mapping's `"To Do"` value is the negative
elapsed `-(d/3600)` hours — the negative duration is silently accumulated,
not rejected. -/
theorem C2_negative_accumulation (c d n : ℚ) (hd : 0 < d) :
    dictGet (calculate_time_in_status
        [⟨c - d, [⟨"status", some "To Do", some "In Progress"⟩]⟩] c n)
      "To Do" = -(d / 3600) ∧
      dictGet (calculate_time_in_status
        [⟨c - d, [⟨"status", some "To Do", some "In Progress"⟩]⟩] c n)
      "To Do" < 0 := by
  have hval : dictGet (calculate_time_in_status
      [⟨c - d, [⟨"status", some "To Do", some "In Progress"⟩]⟩] c n)
      "To Do" = -(d / 3600) := by
    simp [calculate_time_in_status, runEntry, stepChange, applyChange,
      finalize, dictGet, dictSet]
    ring
  refine ⟨hval, ?_⟩
  rw [hval]
  have : 0 < d / 3600 := by positivity
  linarith

theorem C2_negative_accumulation_witness :
    dictGet (calculate_time_in_status
        [⟨0 - 3600, [⟨"status", some "To Do", some "In Progress"⟩]⟩] 0 0)
      "To Do" = -(3600 / 3600) ∧
      dictGet (calculate_time_in_status
        [⟨0 - 3600, [⟨"status", some "To Do", some "In Progress"⟩]⟩] 0 0)
      "To Do" < 0 :=
  C2_negative_accumulation 0 3600 0 (by norm_num)

/-! ## Claim C3: status change without a toValue -/

/-- C3 fails as stated: on a status change whose `toString` is absent the
function raises nothing — no `MalformedChangelogEntry` exists anywhere in
the source — and returns normally; the running status becomes `None` and the
remaining time up to `now` is silently dropped (the values sum to 1 h over a
2 h window). -/
theorem C3_counterexample :
    calculate_time_in_status [⟨3600, [⟨"status", some "To Do", none⟩]⟩] 0
        7200 = [("To Do", 1)] ∧
      sumValues (calculate_time_in_status
        [⟨3600, [⟨"status", some "To Do", none⟩]⟩] 0 7200) <
        (7200 - 0) / 3600 := by
  have hval : calculate_time_in_status
      [⟨3600, [⟨"status", some "To Do", none⟩]⟩] 0 7200 = [("To Do", 1)] := by
    simp [calculate_time_in_status, runEntry, stepChange, applyChange,
      finalize, dictGet, dictSet]
  refine ⟨hval, ?_⟩
  rw [hval]
  simp [sumValues]
  norm_num

/-- C3 amended: a status change with absent `toString` is not rejected: the
function returns normally, the change still closes the current interval, the
running status becomes `None`, and all later time is attributed to no
status — here the whole tail `[t, now]` is lost, so the returned values sum
to `(t - createdAt)` hours, strictly less than the `(now - createdAt)` hours
of the window. -/
theorem C3_missing_toValue_returns (c t n : ℚ) (_hct : c ≤ t) (htn : t < n) :
    calculate_time_in_status [⟨t, [⟨"status", some "To Do", none⟩]⟩] c n =
      [("To Do", (t - c) / 3600)] ∧
      sumValues (calculate_time_in_status
        [⟨t, [⟨"status", some "To Do", none⟩]⟩] c n) < (n - c) / 3600 := by
  have hval : calculate_time_in_status
      [⟨t, [⟨"status", some "To Do", none⟩]⟩] c n =
      [("To Do", (t - c) / 3600)] := by
    simp [calculate_time_in_status, runEntry, stepChange, applyChange,
      finalize, dictGet, dictSet]
  refine ⟨hval, ?_⟩
  rw [hval]
  simp [sumValues]
  linarith

theorem C3_missing_toValue_returns_witness :
    calculate_time_in_status [⟨3600, [⟨"status", some "To Do", none⟩]⟩] 0
        7200 = [("To Do", (3600 - 0) / 3600)] ∧
      sumValues (calculate_time_in_status
        [⟨3600, [⟨"status", some "To Do", none⟩]⟩] 0 7200) <
        (7200 - 0) / 3600 :=
  C3_missing_toValue_returns 0 3600 7200 (by norm_num) (by norm_num)

/-! ## Claim C10: a missing toString silently drops time -/

theorem sum_map_filter_le {α : Type} (p : α → Bool) (f : α → ℚ) (l : List α)
    (h : ∀ x ∈ l, 0 ≤ f x) : ((l.filter p).map f).sum ≤ (l.map f).sum := by
  induction l with
  | nil => simp
  | cons a l ih =>
    have ih' := ih fun x hx => h x (List.mem_cons_of_mem a hx)
    rw [List.filter_cons]
    by_cases hp : p a
    · simp only [if_pos hp, List.map_cons, List.sum_cons]
      exact add_le_add_left ih' (f a)
    · simp only [if_neg hp, List.map_cons, List.sum_cons]
      exact le_add_of_nonneg_of_le (h a (List.mem_cons_self a l)) ih'

theorem sum_map_filter_drop {α : Type} (p : α → Bool) (f : α → ℚ) (l : List α)
    (x : α) (hx : x ∈ l) (hpx : p x = false) (h : ∀ y ∈ l, 0 ≤ f y) :
    ((l.filter p).map f).sum ≤ (l.map f).sum - f x := by
  obtain ⟨s, t, rfl⟩ := List.append_of_mem hx
  have hs := sum_map_filter_le p f s fun y hy => h y (by simp [hy])
  have ht := sum_map_filter_le p f t fun y hy => h y (by simp [hy])
  simp only [List.filter_append, List.map_append, List.sum_append,
    List.filter_cons, hpx, Bool.false_eq_true, if_false, List.map_cons,
    List.sum_cons]
  linarith

/-- Under the ordering hypothesis, every derived interval is non-negative. -/
theorem intervals_nonneg (chs : List (ℚ × Option String)) (s0 : Option String)
    (t0 n : ℚ) (hord : List.Chain (· ≤ ·) t0 (timesOf chs ++ [n])) :
    ∀ iv ∈ statusIntervals s0 t0 chs n, 0 ≤ dur iv := by
  induction chs generalizing s0 t0 with
  | nil =>
    intro iv hiv
    simp [statusIntervals] at hiv
    simp [timesOf, List.chain_cons] at hord
    subst hiv
    simp only [dur]
    exact div_nonneg (by linarith) (by norm_num)
  | cons p rest ih =>
    rcases p with ⟨t, toStat⟩
    intro iv hiv
    simp only [timesOf, List.map_cons, List.cons_append,
      List.chain_cons] at hord
    simp only [statusIntervals, List.mem_cons] at hiv
    rcases hiv with rfl | hiv
    · simp only [dur]
      exact div_nonneg (by linarith [hord.1]) (by norm_num)
    · exact ih toStat t (by simpa [timesOf] using hord.2) iv hiv

/-- The interval opened by the transition `(t, toStat)` runs from `t` to the
next transition's timestamp (or `now`), and is always among the derived
intervals. -/
theorem interval_of_change_mem (pre post : List (ℚ × Option String))
    (s0 : Option String) (t0 n t : ℚ) (toStat : Option String) :
    (toStat, t, headTime post n) ∈
      statusIntervals s0 t0 (pre ++ (t, toStat) :: post) n := by
  induction pre generalizing s0 t0 with
  | nil =>
    cases post with
    | nil => simp [statusIntervals, headTime]
    | cons q qrest =>
      rcases q with ⟨t2, s2⟩
      simp [statusIntervals, headTime]
  | cons q qrest ih =>
    rcases q with ⟨tq, sq⟩
    rw [List.cons_append]
    exact List.mem_cons_of_mem _ (ih sq tq)

/-- C10: when some status-field change carries no `toString`,
`calculate_time_in_status` still returns normally (the embedding is a total
function; nothing is raised), the running status becomes `None`, and the
interval from that change to the next transition (or to `now`) is booked to
no status: on an ordered changelog in which that interval has positive
length, the returned values sum to strictly less than `(now - createdAt)`
hours. -/
theorem C10_missing_toString_drops_time (h : List ChangelogEntry) (c n : ℚ)
    (pre post : List (ℚ × Option String)) (t : ℚ)
    (hsplit : statusChangesOf h = pre ++ (t, none) :: post)
    (hord : ordered c (statusChangesOf h) n)
    (hlt : t < headTime post n) :
    sumValues (calculate_time_in_status h c n) < (n - c) / 3600 := by
  rw [calculate_eq_runChanges, sumValues_finalize_runChanges]
  rw [hsplit] at hord ⊢
  have hnn := intervals_nonneg (pre ++ (t, none) :: post) (some "To Do") c n
    hord
  have hmem := interval_of_change_mem pre post (some "To Do") c n t none
  have hdrop := sum_map_filter_drop (fun iv => truthy iv.1) dur _ _ hmem
    (by simp [truthy]) hnn
  rw [sum_dur_statusIntervals] at hdrop
  have hdur : 0 < dur (none, t, headTime post n) := by
    simp only [dur]
    exact div_pos (by linarith) (by norm_num)
  simp only [truthyTotal, sumValues, List.map_nil, List.sum_nil, zero_add]
  linarith

theorem C10_missing_toString_drops_time_witness :
    sumValues (calculate_time_in_status
      [⟨3600, [⟨"status", some "To Do", none⟩]⟩] 0 7200) < (7200 - 0) / 3600 :=
  C10_missing_toString_drops_time _ 0 7200 [] [] 3600
    (by simp [statusChangesOf])
    (by norm_num [ordered, timesOf, statusChangesOf, List.chain_cons])
    (by norm_num [headTime])
